import Mathlib

/-!
Verification of the module-manager orchestration layer (`types/module.go`).

The Go source is shallowly embedded: the opaque collaborator types
(context, block requests, raw genesis payloads, validator updates, event
tags, transaction handlers, queriers, errors) become type parameters;
Go maps become association lists with Go-map insert/lookup semantics;
a Go `nil`-interface method call (a panic) becomes `none` in an
`Option`-valued result; a Go `nil` slice / absent map entry for a
`json.RawMessage` becomes `none : Option Raw`.
-/

/-- Embeds the `AppModuleBasic` interface (`types/module.go`): the fields the
genesis-aggregation operations use.  `ValidateGenesis` receives the module's
genesis entry, `none` standing for Go's nil `json.RawMessage` (absent map
entry), and returns `none` for a nil error. -/
structure AppModuleBasic (Raw Err : Type) where
  Name : String
  DefaultGenesis : Raw
  ValidateGenesis : Option Raw → Option Err

/-- Embeds the `AppModule` interface (`types/module.go`): the fields the
module-manager orchestration uses.  `InitGenesis` takes a non-nil payload
(the manager only calls it after its nil check).  `EndBlock` returns the
pair (validator updates, tags) as in the source. -/
structure AppModule (Ctx ReqB ReqE Raw V Tag H Q : Type) where
  Name : String
  Route : String
  NewHandler : H
  QuerierRoute : String
  NewQuerierHandler : Q
  InitGenesis : Ctx → Raw → List V
  ExportGenesis : Ctx → Raw
  BeginBlock : Ctx → ReqB → List Tag
  EndBlock : Ctx → ReqE → List V × List Tag

/-- Go-map insertion on an association list: overwrite in place when the key
is present, append otherwise (keys stay unique). -/
def mapInsert {α : Type} : List (String × α) → String → α → List (String × α)
  | [], k, v => [(k, v)]
  | (k', v') :: rest, k, v =>
    if k' = k then (k, v) :: rest else (k', v') :: mapInsert rest k v

/-- Go-map lookup on an association list; `none` models the zero value
returned for an absent key. -/
def mapLookup {α : Type} : List (String × α) → String → Option α
  | [], _ => none
  | (k', v) :: rest, k => if k' = k then some v else mapLookup rest k

/-- Embeds `ModuleBasicManager` (`types/module.go`): a slice of
`AppModuleBasic`, always iterated in registration order. -/
abbrev ModuleBasicManager (Raw Err : Type) := List (AppModuleBasic Raw Err)

/-- Embeds `ModuleManager` (`types/module.go`): the name-keyed module map
(as an association list with Go-map semantics) and the four orderings. -/
structure ModuleManager (Ctx ReqB ReqE Raw V Tag H Q : Type) where
  Modules : List (String × AppModule Ctx ReqB ReqE Raw V Tag H Q)
  OrderInitGenesis : List String
  OrderExportGenesis : List String
  OrderBeginBlockers : List String
  OrderEndBlockers : List String

section Manager

variable {Ctx ReqB ReqE Raw V Tag H Q : Type}

/-- Embeds `NewModuleManager` (`types/module.go`): builds the name→module
map by successive Go-map insertion and initialises all four orderings to
the list of module names in registration order. -/
def NewModuleManager (modules : List (AppModule Ctx ReqB ReqE Raw V Tag H Q)) :
    ModuleManager Ctx ReqB ReqE Raw V Tag H Q :=
  let moduleMap := modules.foldl (fun acc m => mapInsert acc m.Name m) []
  let modulesStr := modules.map (fun m => m.Name)
  { Modules := moduleMap
    OrderInitGenesis := modulesStr
    OrderExportGenesis := modulesStr
    OrderBeginBlockers := modulesStr
    OrderEndBlockers := modulesStr }

/-- Embeds `ModuleManager.SetOrderInitGenesis`. -/
def ModuleManager.SetOrderInitGenesis
    (mm : ModuleManager Ctx ReqB ReqE Raw V Tag H Q) (moduleNames : List String) :
    ModuleManager Ctx ReqB ReqE Raw V Tag H Q :=
  { mm with OrderInitGenesis := moduleNames }

/-- Embeds `ModuleManager.SetOrderExportGenesis`. -/
def ModuleManager.SetOrderExportGenesis
    (mm : ModuleManager Ctx ReqB ReqE Raw V Tag H Q) (moduleNames : List String) :
    ModuleManager Ctx ReqB ReqE Raw V Tag H Q :=
  { mm with OrderExportGenesis := moduleNames }

/-- Embeds `ModuleManager.SetOrderBeginBlockers`. -/
def ModuleManager.SetOrderBeginBlockers
    (mm : ModuleManager Ctx ReqB ReqE Raw V Tag H Q) (moduleNames : List String) :
    ModuleManager Ctx ReqB ReqE Raw V Tag H Q :=
  { mm with OrderBeginBlockers := moduleNames }

/-- Embeds `ModuleManager.SetOrderEndBlockers`. -/
def ModuleManager.SetOrderEndBlockers
    (mm : ModuleManager Ctx ReqB ReqE Raw V Tag H Q) (moduleNames : List String) :
    ModuleManager Ctx ReqB ReqE Raw V Tag H Q :=
  { mm with OrderEndBlockers := moduleNames }

/-- Embeds `ModuleBasicManager.ValidateGenesis` (`types/module.go`):
iterates in registration order, passes each module its own genesis entry
(`genesis mb.Name`, `none` when absent), and returns the first error. -/
def ModuleBasicManager.ValidateGenesis {Raw Err : Type} :
    ModuleBasicManager Raw Err → (String → Option Raw) → Option Err
  | [], _ => none
  | mb :: rest, genesis =>
    match mb.ValidateGenesis (genesis mb.Name) with
    | some err => some err
    | none => ModuleBasicManager.ValidateGenesis rest genesis

/-- Instrumentation of the `ValidateGenesis` loop: the sequence of validator
invocations it performs, each recorded as (module name, payload passed).
The loop body is the same as `ModuleBasicManager.ValidateGenesis`; an error
stops the iteration after the failing invocation. -/
def validateGenesisInvocations {Raw Err : Type} :
    ModuleBasicManager Raw Err → (String → Option Raw) → List (String × Option Raw)
  | [], _ => []
  | mb :: rest, genesis =>
    match mb.ValidateGenesis (genesis mb.Name) with
    | some _ => [(mb.Name, genesis mb.Name)]
    | none => (mb.Name, genesis mb.Name) :: validateGenesisInvocations rest genesis

/-- Modelled from the spec: the external routers' `AddRoute` is not under
src/ (the `Router`/`QueryRouter` collaborators); per the spec it "registers
(route, handler)" into the route table, modelled as an append-only list of
pairs. -/
def addRoute {α : Type} (router : List (String × α)) (route : String) (h : α) :
    List (String × α) :=
  router ++ [(route, h)]

/-- Modelled from the spec: `EmptyTags` (tag utility not under src/) — the
empty event tag accumulator. -/
def EmptyTags (Tag : Type) : List Tag := []

/-- Modelled from the spec: `Tags.AppendTags` (tag utility not under src/) —
tags are "concatenated across modules in iteration order, never deduplicated
or reordered", i.e. list append. -/
def AppendTags {Tag : Type} (tags moduleTags : List Tag) : List Tag :=
  tags ++ moduleTags

section Ops

variable {Ctx ReqB ReqE Raw V Tag H Q : Type}

/-- Embeds `ModuleManager.RegisterRoutes` (`types/module.go`): for every
module of the map, registers `(Route, NewHandler)` when `Route` is non-empty
and `(QuerierRoute, NewQuerierHandler)` when `QuerierRoute` is non-empty.
(The Go `range` over the map visits each entry once in unspecified order;
the embedding iterates the entries of the association list.) -/
def ModuleManager.RegisterRoutes
    (mm : ModuleManager Ctx ReqB ReqE Raw V Tag H Q)
    (router : List (String × H)) (queryRouter : List (String × Q)) :
    List (String × H) × List (String × Q) :=
  mm.Modules.foldl
    (fun rs entry =>
      let m := entry.2
      let rs1 :=
        if m.Route ≠ "" then (addRoute rs.1 m.Route m.NewHandler, rs.2) else rs
      if m.QuerierRoute ≠ "" then
        (rs1.1, addRoute rs1.2 m.QuerierRoute m.NewQuerierHandler)
      else rs1)
    (router, queryRouter)

/-- Loop of `ModuleManager.InitGenesis` (`types/module.go`), with the running
`validatorUpdates` explicit: a name whose genesis entry is nil is skipped
(`continue`); otherwise the module is looked up (a missing entry is a nil
interface, whose method call panics: `none`), its `InitGenesis` called with
the entry, and a non-empty result overwrites the running updates. -/
def initGenesisAux (mm : ModuleManager Ctx ReqB ReqE Raw V Tag H Q)
    (ctx : Ctx) (genesisData : String → Option Raw) :
    List String → List V → Option (List V)
  | [], validatorUpdates => some validatorUpdates
  | moduleName :: rest, validatorUpdates =>
    match genesisData moduleName with
    | none => initGenesisAux mm ctx genesisData rest validatorUpdates
    | some payload =>
      match mapLookup mm.Modules moduleName with
      | none => none
      | some m =>
        let moduleValUpdates := m.InitGenesis ctx payload
        initGenesisAux mm ctx genesisData rest
          (if moduleValUpdates.length > 0 then moduleValUpdates else validatorUpdates)

/-- Embeds `ModuleManager.InitGenesis` (`types/module.go`); the result is the
`Validators` field of the returned `ResponseInitChain` (`none` = panic). -/
def ModuleManager.InitGenesis (mm : ModuleManager Ctx ReqB ReqE Raw V Tag H Q)
    (ctx : Ctx) (genesisData : String → Option Raw) : Option (List V) :=
  initGenesisAux mm ctx genesisData mm.OrderInitGenesis []

/-- Instrumentation of the `InitGenesis` loop: the sequence of module
`InitGenesis` invocations it performs, each recorded as (module name,
payload passed); skipped names contribute nothing, `none` = panic. -/
def initGenesisInvocations (mm : ModuleManager Ctx ReqB ReqE Raw V Tag H Q)
    (genesisData : String → Option Raw) :
    List String → Option (List (String × Raw))
  | [] => some []
  | moduleName :: rest =>
    match genesisData moduleName with
    | none => initGenesisInvocations mm genesisData rest
    | some payload =>
      match mapLookup mm.Modules moduleName with
      | none => none
      | some _ =>
        (initGenesisInvocations mm genesisData rest).map
          (fun tr => (moduleName, payload) :: tr)

/-- Loop of `ModuleManager.ExportGenesis` (`types/module.go`): every listed
name is looked up unconditionally (no skip logic) and its exported payload
stored into the genesis map under its name. -/
def exportGenesisAux (mm : ModuleManager Ctx ReqB ReqE Raw V Tag H Q)
    (ctx : Ctx) : List String → List (String × Raw) → Option (List (String × Raw))
  | [], genesisData => some genesisData
  | moduleName :: rest, genesisData =>
    match mapLookup mm.Modules moduleName with
    | none => none
    | some m =>
      exportGenesisAux mm ctx rest (mapInsert genesisData moduleName (m.ExportGenesis ctx))

/-- Embeds `ModuleManager.ExportGenesis` (`types/module.go`). -/
def ModuleManager.ExportGenesis (mm : ModuleManager Ctx ReqB ReqE Raw V Tag H Q)
    (ctx : Ctx) : Option (List (String × Raw)) :=
  exportGenesisAux mm ctx mm.OrderExportGenesis []

/-- Loop of `ModuleManager.BeginBlock` (`types/module.go`): each listed
module's tag list is appended, in order, to the running accumulator. -/
def beginBlockAux (mm : ModuleManager Ctx ReqB ReqE Raw V Tag H Q)
    (ctx : Ctx) (req : ReqB) : List String → List Tag → Option (List Tag)
  | [], tags => some tags
  | moduleName :: rest, tags =>
    match mapLookup mm.Modules moduleName with
    | none => none
    | some m => beginBlockAux mm ctx req rest (AppendTags tags (m.BeginBlock ctx req))

/-- Embeds `ModuleManager.BeginBlock` (`types/module.go`); the result is the
`Tags` field of the returned `ResponseBeginBlock` (`none` = panic). -/
def ModuleManager.BeginBlock (mm : ModuleManager Ctx ReqB ReqE Raw V Tag H Q)
    (ctx : Ctx) (req : ReqB) : Option (List Tag) :=
  beginBlockAux mm ctx req mm.OrderBeginBlockers (EmptyTags Tag)

/-- Loop of `ModuleManager.EndBlock` (`types/module.go`): tags accumulate as
in `BeginBlock`; a module's non-empty validator-update list overwrites the
running updates. -/
def endBlockAux (mm : ModuleManager Ctx ReqB ReqE Raw V Tag H Q)
    (ctx : Ctx) (req : ReqE) :
    List String → List V → List Tag → Option (List V × List Tag)
  | [], validatorUpdates, tags => some (validatorUpdates, tags)
  | moduleName :: rest, validatorUpdates, tags =>
    match mapLookup mm.Modules moduleName with
    | none => none
    | some m =>
      let r := m.EndBlock ctx req
      endBlockAux mm ctx req rest
        (if r.1.length > 0 then r.1 else validatorUpdates)
        (AppendTags tags r.2)

/-- Embeds `ModuleManager.EndBlock` (`types/module.go`); the result pair is
the `ValidatorUpdates` and `Tags` fields of the returned `ResponseEndBlock`
(`none` = panic). -/
def ModuleManager.EndBlock (mm : ModuleManager Ctx ReqB ReqE Raw V Tag H Q)
    (ctx : Ctx) (req : ReqE) : Option (List V × List Tag) :=
  endBlockAux mm ctx req mm.OrderEndBlockers [] (EmptyTags Tag)

/-- Instrumentation shared by the `ExportGenesis`, `BeginBlock` and
`EndBlock` loops, which all invoke exactly the looked-up module for every
listed name: the sequence of (name, module) invocations along an order
(`none` = panic on a missing name). -/
def orderInvocations (mm : ModuleManager Ctx ReqB ReqE Raw V Tag H Q) :
    List String → Option (List (String × AppModule Ctx ReqB ReqE Raw V Tag H Q))
  | [] => some []
  | moduleName :: rest =>
    match mapLookup mm.Modules moduleName with
    | none => none
    | some m => (orderInvocations mm rest).map (fun tr => (moduleName, m) :: tr)

end Ops

/-- The spec's description of the validator-set-update aggregation: "the
last non-empty update list encountered, or empty if none produced one" —
among the per-module update lists, the last one that is non-empty, else
the empty list. -/
def lastNonEmpty {V : Type} (updates : List (List V)) : List V :=
  ((updates.filter (fun u => u.length > 0)).getLast?).getD []

/-- The last module of a list carrying a given name (the binding a sequence
of Go-map inserts keyed by `Name` leaves for that name). -/
def lastNamed {Ctx ReqB ReqE Raw V Tag H Q : Type} :
    List (AppModule Ctx ReqB ReqE Raw V Tag H Q) → String →
    Option (AppModule Ctx ReqB ReqE Raw V Tag H Q)
  | [], _ => none
  | m :: ms, n =>
    match lastNamed ms n with
    | some m' => some m'
    | none => if m.Name = n then some m else none

end Manager

/-! Concrete fixtures (all collaborator types instantiated with `Nat`),
used to exercise the definitions at explicit inputs. -/

/-- A module manager instance with every collaborator type `Nat`. -/
abbrev NatModuleManager := ModuleManager Nat Nat Nat Nat Nat Nat Nat Nat

/-- An `AppModule` instance with every collaborator type `Nat`. -/
abbrev NatModule := AppModule Nat Nat Nat Nat Nat Nat Nat Nat

/-- Fixture module "a": accepts transactions and queries, returns non-empty
validator updates from both genesis and end-block. -/
def modA : NatModule :=
  { Name := "a", Route := "ra", NewHandler := 1, QuerierRoute := "qa",
    NewQuerierHandler := 2, InitGenesis := fun _ p => [p],
    ExportGenesis := fun c => c, BeginBlock := fun _ _ => [10],
    EndBlock := fun _ _ => ([1], [11]) }

/-- Fixture module "b": empty transaction route, empty init-genesis updates,
non-empty end-block updates. -/
def modB : NatModule :=
  { Name := "b", Route := "", NewHandler := 3, QuerierRoute := "qb",
    NewQuerierHandler := 4, InitGenesis := fun _ _ => [],
    ExportGenesis := fun _ => 7, BeginBlock := fun _ _ => [10],
    EndBlock := fun _ _ => ([2], [21]) }

/-- Fixture manager over modules "a" and "b". -/
def mmAB : NatModuleManager := NewModuleManager [modA, modB]

/-- Fixture genesis map: an entry for "a" only. -/
def genA : String → Option Nat := fun n => if n = "a" then some 5 else none

/-- Fixture manager whose three genesis/block orderings name "g", which is
absent from its module map. -/
def mmGhost : NatModuleManager :=
  (((NewModuleManager [modA]).SetOrderBeginBlockers ["g"]).SetOrderExportGenesis
      ["g"]).SetOrderInitGenesis ["g"]

/-- Fixture genesis map: an entry for "g" only. -/
def genG : String → Option Nat := fun n => if n = "g" then some 5 else none

/-- Fixture manager over module "a" alone. -/
def mmA : NatModuleManager := NewModuleManager [modA]

/-- Fixture duplicate-name module, first registration: name "x". -/
def modX1 : NatModule :=
  { Name := "x", Route := "r1", NewHandler := 1, QuerierRoute := "q1",
    NewQuerierHandler := 2, InitGenesis := fun _ _ => [1],
    ExportGenesis := fun _ => 1, BeginBlock := fun _ _ => [1],
    EndBlock := fun _ _ => ([1], [1]) }

/-- Fixture duplicate-name module, second registration: also name "x", with
a different transaction route. -/
def modX2 : NatModule :=
  { Name := "x", Route := "r2", NewHandler := 3, QuerierRoute := "q2",
    NewQuerierHandler := 4, InitGenesis := fun _ _ => [2],
    ExportGenesis := fun _ => 2, BeginBlock := fun _ _ => [2],
    EndBlock := fun _ _ => ([2], [2]) }

/-- Fixture basic module named "a" whose validator always fails with 7. -/
def mbFailA : AppModuleBasic Nat Nat :=
  { Name := "a", DefaultGenesis := 0, ValidateGenesis := fun _ => some 7 }

/-- Fixture basic module named "b" whose validator always fails with 7. -/
def mbFailB : AppModuleBasic Nat Nat :=
  { Name := "b", DefaultGenesis := 0, ValidateGenesis := fun _ => some 7 }

/-! Helper lemmas characterising the loops. -/

/-- The running-result fold of the validator-update loops computes the last
element satisfying the guard, or the start value. -/
theorem foldl_if_getLast {V : Type} (l : List (List V)) :
    ∀ acc : List V, l.foldl (fun a u => if u.length > 0 then u else a) acc =
      ((l.filter (fun u => u.length > 0)).getLast?).getD acc := by
  induction l with
  | nil => intro acc; simp
  | cons u us ih =>
    intro acc
    by_cases hu : u.length > 0
    · rw [List.foldl_cons, if_pos hu, ih, List.filter_cons_of_pos (by simpa using hu)]
      cases h : (us.filter (fun u => u.length > 0)).getLast? with
      | none => simp [List.getLast?_cons, h]
      | some x => simp [List.getLast?_cons, h]
    · rw [List.foldl_cons, if_neg hu, ih, List.filter_cons_of_neg (by simpa using hu)]

section AuxLemmas

variable {Ctx ReqB ReqE Raw V Tag H Q : Type}
variable {mm : ModuleManager Ctx ReqB ReqE Raw V Tag H Q}

/-- When every listed name resolves in the module map, the `EndBlock` loop
returns the fold of the per-module results over the resolved modules. -/
theorem endBlockAux_spec (ctx : Ctx) (req : ReqE) (names : List String) :
    ∀ (accV : List V) (accT : List Tag),
      (∀ n ∈ names, (mapLookup mm.Modules n).isSome) →
      endBlockAux mm ctx req names accV accT =
        some ((names.filterMap (mapLookup mm.Modules)).foldl
                (fun acc m =>
                  if (m.EndBlock ctx req).1.length > 0 then (m.EndBlock ctx req).1 else acc)
                accV,
              accT ++
                ((names.filterMap (mapLookup mm.Modules)).map
                  (fun m => (m.EndBlock ctx req).2)).flatten) := by
  induction names with
  | nil => intro accV accT _; simp [endBlockAux]
  | cons x rest ih =>
    intro accV accT h
    obtain ⟨m, hm⟩ := Option.isSome_iff_exists.mp (h x (List.mem_cons_self x rest))
    rw [endBlockAux, hm]
    dsimp only
    rw [ih _ _ (fun y hy => h y (List.mem_cons_of_mem _ hy))]
    simp [List.filterMap_cons, hm, AppendTags, List.append_assoc]

/-- When every listed name resolves in the module map, the `BeginBlock` loop
returns the accumulated tags of the resolved modules, concatenated in
iteration order. -/
theorem beginBlockAux_spec (ctx : Ctx) (req : ReqB) (names : List String) :
    ∀ accT : List Tag,
      (∀ n ∈ names, (mapLookup mm.Modules n).isSome) →
      beginBlockAux mm ctx req names accT =
        some (accT ++
          ((names.filterMap (mapLookup mm.Modules)).map
            (fun m => m.BeginBlock ctx req)).flatten) := by
  induction names with
  | nil => intro accT _; simp [beginBlockAux]
  | cons x rest ih =>
    intro accT h
    obtain ⟨m, hm⟩ := Option.isSome_iff_exists.mp (h x (List.mem_cons_self x rest))
    rw [beginBlockAux, hm]
    dsimp only
    rw [ih _ (fun y hy => h y (List.mem_cons_of_mem _ hy))]
    simp [List.filterMap_cons, hm, AppendTags, List.append_assoc]

/-- When every listed name with a non-nil genesis entry resolves in the
module map, the `InitGenesis` loop returns the fold of the per-module
results over the iterated (module, payload) pairs. -/
theorem initGenesisAux_spec (ctx : Ctx) (gen : String → Option Raw) (names : List String) :
    ∀ accV : List V,
      (∀ n ∈ names, gen n ≠ none → (mapLookup mm.Modules n).isSome) →
      initGenesisAux mm ctx gen names accV =
        some ((names.filterMap
                (fun x => (gen x).bind
                  (fun p => (mapLookup mm.Modules x).map (fun m => (m, p))))).foldl
                (fun acc mp =>
                  if (mp.1.InitGenesis ctx mp.2).length > 0 then mp.1.InitGenesis ctx mp.2
                  else acc)
                accV) := by
  induction names with
  | nil => intro accV _; simp [initGenesisAux]
  | cons x rest ih =>
    intro accV h
    cases hg : gen x with
    | none =>
      rw [initGenesisAux, hg]
      rw [ih _ (fun y hy hgy => h y (List.mem_cons_of_mem _ hy) hgy)]
      simp [List.filterMap_cons, hg]
    | some p =>
      obtain ⟨m, hm⟩ := Option.isSome_iff_exists.mp
        (h x (List.mem_cons_self x rest) (by simp [hg]))
      rw [initGenesisAux, hg, hm]
      dsimp only
      rw [ih _ (fun y hy hgy => h y (List.mem_cons_of_mem _ hy) hgy)]
      simp [List.filterMap_cons, hg, hm]

/-- When every listed name with a non-nil genesis entry resolves in the
module map, the `InitGenesis` invocation trace is exactly the listed names
with non-nil entries, each paired with its entry, in iteration order. -/
theorem initGenesisInvocations_spec (gen : String → Option Raw) (names : List String) :
    (∀ n ∈ names, gen n ≠ none → (mapLookup mm.Modules n).isSome) →
    initGenesisInvocations mm gen names =
      some (names.filterMap (fun x => (gen x).map (fun p => (x, p)))) := by
  induction names with
  | nil => intro _; simp [initGenesisInvocations]
  | cons x rest ih =>
    intro h
    cases hg : gen x with
    | none =>
      rw [initGenesisInvocations, hg]
      rw [ih (fun y hy hgy => h y (List.mem_cons_of_mem _ hy) hgy)]
      simp [List.filterMap_cons, hg]
    | some p =>
      obtain ⟨m, hm⟩ := Option.isSome_iff_exists.mp
        (h x (List.mem_cons_self x rest) (by simp [hg]))
      rw [initGenesisInvocations, hg, hm]
      rw [ih (fun y hy hgy => h y (List.mem_cons_of_mem _ hy) hgy)]
      simp [List.filterMap_cons, hg]

/-- Every entry of the `InitGenesis` invocation trace names a listed module
and carries that module's genesis entry. -/
theorem initGenesisInvocations_mem (gen : String → Option Raw) (names : List String) :
    ∀ tr, initGenesisInvocations mm gen names = some tr →
      ∀ e ∈ tr, e.1 ∈ names ∧ gen e.1 = some e.2 := by
  induction names with
  | nil => intro tr htr e he; simp [initGenesisInvocations] at htr; simp [htr] at he
  | cons x rest ih =>
    intro tr htr e he
    rw [initGenesisInvocations] at htr
    cases hg : gen x with
    | none =>
      rw [hg] at htr
      rcases ih tr htr e he with ⟨h1, h2⟩
      exact ⟨List.mem_cons_of_mem _ h1, h2⟩
    | some p =>
      rw [hg] at htr
      cases hm : mapLookup mm.Modules x with
      | none => rw [hm] at htr; cases htr
      | some m =>
        rw [hm] at htr
        cases htr' : initGenesisInvocations mm gen rest with
        | none => rw [htr'] at htr; cases htr
        | some tr' =>
          rw [htr'] at htr
          simp only [Option.map_some] at htr
          cases htr
          rcases List.mem_cons.mp he with he1 | he2
          · subst he1; exact ⟨List.mem_cons_self x rest, hg⟩
          · rcases ih tr' htr' e he2 with ⟨h1, h2⟩
            exact ⟨List.mem_cons_of_mem _ h1, h2⟩

/-- When every listed name resolves in the module map, the invocation trace
along an order is exactly the listed names, each paired with its looked-up
module, in iteration order. -/
theorem orderInvocations_spec (names : List String) :
    (∀ n ∈ names, (mapLookup mm.Modules n).isSome) →
    orderInvocations mm names =
      some (names.filterMap (fun x => (mapLookup mm.Modules x).map (fun m => (x, m)))) := by
  induction names with
  | nil => intro _; simp [orderInvocations]
  | cons x rest ih =>
    intro h
    obtain ⟨m, hm⟩ := Option.isSome_iff_exists.mp (h x (List.mem_cons_self x rest))
    rw [orderInvocations, hm]
    rw [ih (fun y hy => h y (List.mem_cons_of_mem _ hy))]
    simp [List.filterMap_cons, hm]

/-- Every entry of an order's invocation trace names a listed module and
carries exactly the module the map holds for that name. -/
theorem orderInvocations_mem (names : List String) :
    ∀ tr, orderInvocations mm names = some tr →
      ∀ e ∈ tr, e.1 ∈ names ∧ mapLookup mm.Modules e.1 = some e.2 := by
  induction names with
  | nil => intro tr htr e he; simp [orderInvocations] at htr; simp [htr] at he
  | cons x rest ih =>
    intro tr htr e he
    rw [orderInvocations] at htr
    cases hm : mapLookup mm.Modules x with
    | none => rw [hm] at htr; cases htr
    | some m =>
      rw [hm] at htr
      cases htr' : orderInvocations mm rest with
      | none => rw [htr'] at htr; cases htr
      | some tr' =>
        rw [htr'] at htr
        simp only [Option.map_some] at htr
        cases htr
        rcases List.mem_cons.mp he with he1 | he2
        · subst he1; exact ⟨List.mem_cons_self x rest, hm⟩
        · rcases ih tr' htr' e he2 with ⟨h1, h2⟩
          exact ⟨List.mem_cons_of_mem _ h1, h2⟩

/-- A listed name missing from the module map makes the `BeginBlock` loop
panic. -/
theorem beginBlockAux_none (ctx : Ctx) (req : ReqB) (names : List String) :
    (∃ x ∈ names, mapLookup mm.Modules x = none) →
    ∀ accT : List Tag, beginBlockAux mm ctx req names accT = none := by
  induction names with
  | nil => rintro ⟨x, hx, _⟩; cases hx
  | cons y rest ih =>
    rintro ⟨x, hx, hnone⟩ accT
    cases hm : mapLookup mm.Modules y with
    | none => rw [beginBlockAux, hm]
    | some m =>
      rw [beginBlockAux, hm]
      dsimp only
      refine ih ⟨x, ?_, hnone⟩ _
      rcases List.mem_cons.mp hx with h1 | h2
      · subst h1; rw [hnone] at hm; cases hm
      · exact h2

/-- A listed name missing from the module map makes the `ExportGenesis` loop
panic. -/
theorem exportGenesisAux_none (ctx : Ctx) (names : List String) :
    (∃ x ∈ names, mapLookup mm.Modules x = none) →
    ∀ acc : List (String × Raw), exportGenesisAux mm ctx names acc = none := by
  induction names with
  | nil => rintro ⟨x, hx, _⟩; cases hx
  | cons y rest ih =>
    rintro ⟨x, hx, hnone⟩ acc
    cases hm : mapLookup mm.Modules y with
    | none => rw [exportGenesisAux, hm]
    | some m =>
      rw [exportGenesisAux, hm]
      dsimp only
      refine ih ⟨x, ?_, hnone⟩ _
      rcases List.mem_cons.mp hx with h1 | h2
      · subst h1; rw [hnone] at hm; cases hm
      · exact h2

/-- A listed name missing from the module map whose genesis entry is non-nil
makes the `InitGenesis` loop panic. -/
theorem initGenesisAux_none (ctx : Ctx) (gen : String → Option Raw) (names : List String) :
    (∃ x ∈ names, mapLookup mm.Modules x = none ∧ gen x ≠ none) →
    ∀ accV : List V, initGenesisAux mm ctx gen names accV = none := by
  induction names with
  | nil => rintro ⟨x, hx, _⟩; cases hx
  | cons y rest ih =>
    rintro ⟨x, hx, hnone, hgx⟩ accV
    cases hg : gen y with
    | none =>
      rw [initGenesisAux, hg]
      refine ih ⟨x, ?_, hnone, hgx⟩ _
      rcases List.mem_cons.mp hx with h1 | h2
      · subst h1; exact absurd hg hgx
      · exact h2
    | some p =>
      cases hm : mapLookup mm.Modules y with
      | none => rw [initGenesisAux, hg, hm]
      | some m =>
        rw [initGenesisAux, hg, hm]
        dsimp only
        refine ih ⟨x, ?_, hnone, hgx⟩ _
        rcases List.mem_cons.mp hx with h1 | h2
        · subst h1; rw [hnone] at hm; cases hm
        · exact h2

/-- When every listed name missing from the module map has a nil genesis
entry, the `InitGenesis` loop completes without panicking. -/
theorem initGenesisAux_isSome (ctx : Ctx) (gen : String → Option Raw) (names : List String) :
    (∀ x ∈ names, mapLookup mm.Modules x = none → gen x = none) →
    ∀ accV : List V, (initGenesisAux mm ctx gen names accV).isSome := by
  induction names with
  | nil => intro _ accV; simp [initGenesisAux]
  | cons y rest ih =>
    intro h accV
    cases hg : gen y with
    | none =>
      rw [initGenesisAux, hg]
      exact ih (fun x hx => h x (List.mem_cons_of_mem _ hx)) _
    | some p =>
      cases hm : mapLookup mm.Modules y with
      | none =>
        have := h y (List.mem_cons_self y rest) hm
        rw [this] at hg; cases hg
      | some m =>
        rw [initGenesisAux, hg, hm]
        dsimp only
        exact ih (fun x hx => h x (List.mem_cons_of_mem _ hx)) _

end AuxLemmas

/-- The fail-fast shape of genesis validation: the result is the first
failing module's own error (`none` when every validator passes), and the
validators invoked are exactly those up to and including the first failing
one, each receiving its own genesis entry. -/
theorem validateGenesis_span {Raw Err : Type}
    (mbm : ModuleBasicManager Raw Err) (genesis : String → Option Raw) :
    ModuleBasicManager.ValidateGenesis mbm genesis =
      ((mbm.dropWhile
          (fun mb => (mb.ValidateGenesis (genesis mb.Name)).isNone)).head?).bind
        (fun mb => mb.ValidateGenesis (genesis mb.Name)) ∧
    validateGenesisInvocations mbm genesis =
      (mbm.takeWhile (fun mb => (mb.ValidateGenesis (genesis mb.Name)).isNone)).map
        (fun mb => (mb.Name, genesis mb.Name)) ++
      (((mbm.dropWhile
          (fun mb => (mb.ValidateGenesis (genesis mb.Name)).isNone)).head?).map
        (fun mb => (mb.Name, genesis mb.Name))).toList := by
  induction mbm with
  | nil => exact ⟨rfl, rfl⟩
  | cons mb rest ih =>
    cases h : mb.ValidateGenesis (genesis mb.Name) with
    | none =>
      constructor
      · rw [ModuleBasicManager.ValidateGenesis, h]
        dsimp only
        simp only [List.dropWhile_cons, h, Option.isNone_none, if_true]
        exact ih.1
      · rw [validateGenesisInvocations, h]
        dsimp only
        simp only [List.takeWhile_cons, List.dropWhile_cons, h, Option.isNone_none,
          if_true, List.map_cons, List.cons_append]
        exact congrArg _ ih.2
    | some err =>
      constructor
      · rw [ModuleBasicManager.ValidateGenesis, h]
        dsimp only
        simp [List.dropWhile_cons, h]
      · rw [validateGenesisInvocations, h]
        dsimp only
        simp [List.takeWhile_cons, List.dropWhile_cons, h]

/-- Looking up in a Go map after an insert: the inserted key shadows, any
other key reads the old map. -/
theorem mapLookup_mapInsert {α : Type} (acc : List (String × α)) (k : String) (v : α)
    (n : String) :
    mapLookup (mapInsert acc k v) n = if k = n then some v else mapLookup acc n := by
  induction acc with
  | nil =>
    by_cases hn : k = n
    · simp [mapInsert, mapLookup, hn]
    · simp [mapInsert, mapLookup, hn]
  | cons e rest ih =>
    obtain ⟨k', v'⟩ := e
    rw [mapInsert]
    by_cases hk : k' = k
    · rw [if_pos hk]
      subst hk
      by_cases hn : k' = n
      · subst hn; simp [mapLookup]
      · simp [mapLookup, hn]
    · rw [if_neg hk]
      by_cases hn : k' = n
      · have hkn : ¬(k = n) := fun h => hk (hn.trans h.symm)
        simp [mapLookup, hn, hkn]
      · simp [mapLookup, hn, ih]

section NamedLemmas

variable {Ctx ReqB ReqE Raw V Tag H Q : Type}

/-- A module found by `lastNamed` carries the looked-up name. -/
theorem lastNamed_name (mods : List (AppModule Ctx ReqB ReqE Raw V Tag H Q)) (n : String) :
    ∀ m, lastNamed mods n = some m → m.Name = n := by
  induction mods with
  | nil => intro m h; cases h
  | cons x rest ih =>
    intro m h
    rw [lastNamed] at h
    cases hr : lastNamed rest n with
    | some m' => rw [hr] at h; cases h; exact ih _ hr
    | none =>
      rw [hr] at h
      by_cases hx : x.Name = n
      · rw [if_pos hx] at h; cases h; exact hx
      · rw [if_neg hx] at h; cases h

/-- Folding Go-map inserts keyed by module name over a list leaves, for each
name, the binding of the last module with that name. -/
theorem lookup_build (mods : List (AppModule Ctx ReqB ReqE Raw V Tag H Q)) (n : String) :
    ∀ acc, mapLookup (List.foldl (fun a m => mapInsert a m.Name m) acc mods) n =
      match lastNamed mods n with
      | some m => some m
      | none => mapLookup acc n := by
  induction mods with
  | nil => intro acc; simp [lastNamed]
  | cons x rest ih =>
    intro acc
    rw [List.foldl_cons, ih, lastNamed]
    cases hr : lastNamed rest n with
    | some m' => rfl
    | none =>
      dsimp only
      rw [mapLookup_mapInsert]
      by_cases hx : x.Name = n
      · rw [if_pos hx, if_pos hx]
      · rw [if_neg hx, if_neg hx]

/-- The constructed manager's map binds each name to the last registered
module with that name. -/
theorem lookup_newModuleManager (mods : List (AppModule Ctx ReqB ReqE Raw V Tag H Q))
    (n : String) :
    mapLookup (NewModuleManager mods).Modules n = lastNamed mods n := by
  have h : (NewModuleManager mods).Modules =
      List.foldl (fun a m => mapInsert a m.Name m) [] mods := rfl
  rw [h, lookup_build]
  cases lastNamed mods n with
  | none => rfl
  | some m => rfl

/-- `lastNamed` over an append prefers the suffix. -/
theorem lastNamed_append (xs ys : List (AppModule Ctx ReqB ReqE Raw V Tag H Q)) (n : String) :
    lastNamed (xs ++ ys) n =
      match lastNamed ys n with
      | some m => some m
      | none => lastNamed xs n := by
  induction xs with
  | nil => simp; cases lastNamed ys n <;> rfl
  | cons x rest ih =>
    rw [List.cons_append, lastNamed, ih]
    conv_rhs => rw [lastNamed]
    cases lastNamed ys n <;> cases lastNamed rest n <;> rfl

/-- `lastNamed` finds nothing when no module carries the name. -/
theorem lastNamed_eq_none (l : List (AppModule Ctx ReqB ReqE Raw V Tag H Q)) (n : String)
    (h : ∀ m ∈ l, m.Name ≠ n) : lastNamed l n = none := by
  induction l with
  | nil => rfl
  | cons x rest ih =>
    rw [lastNamed, ih (fun m hm => h m (List.mem_cons_of_mem _ hm))]
    rw [if_neg (h x (List.mem_cons_self x rest))]

/-- `lastNamed` finds something when some module carries the name. -/
theorem lastNamed_isSome (mods : List (AppModule Ctx ReqB ReqE Raw V Tag H Q)) (n : String)
    (h : ∃ m ∈ mods, m.Name = n) : (lastNamed mods n).isSome := by
  induction mods with
  | nil => rcases h with ⟨m, hm, _⟩; cases hm
  | cons x rest ih =>
    rw [lastNamed]
    cases hr : lastNamed rest n with
    | some m' => simp
    | none =>
      rcases h with ⟨m, hm, hname⟩
      rcases List.mem_cons.mp hm with h1 | h2
      · subst h1; rw [if_pos hname]; simp
      · have := ih ⟨m, h2, hname⟩
        rw [hr] at this
        simp at this

/-- Along an order in which every name resolves, the trace entries for a
given name all carry the module the map binds to it, one per occurrence of
the name. -/
theorem trace_filter_replicate (mm : ModuleManager Ctx ReqB ReqE Raw V Tag H Q)
    (n : String) (m2 : AppModule Ctx ReqB ReqE Raw V Tag H Q)
    (hlook : mapLookup mm.Modules n = some m2) :
    ∀ names, (∀ x ∈ names, (mapLookup mm.Modules x).isSome) →
      ∀ tr, orderInvocations mm names = some tr →
        tr.filter (fun e => e.1 = n) =
          List.replicate (names.filter (fun x => x = n)).length (n, m2) := by
  intro names
  induction names with
  | nil =>
    intro _ tr htr
    rw [orderInvocations] at htr
    cases htr
    simp
  | cons x rest ih =>
    intro h tr htr
    obtain ⟨m, hm⟩ := Option.isSome_iff_exists.mp (h x (List.mem_cons_self x rest))
    rw [orderInvocations, hm] at htr
    cases htr' : orderInvocations mm rest with
    | none => rw [htr'] at htr; cases htr
    | some tr' =>
      rw [htr'] at htr
      simp only [Option.map_some] at htr
      cases htr
      have hrest := ih (fun y hy => h y (List.mem_cons_of_mem _ hy)) tr' htr'
      by_cases hx : x = n
      · subst hx
        rw [hlook] at hm
        cases hm
        simp [List.filter_cons, hrest, List.replicate_succ]
      · simp [List.filter_cons, hx, hrest]

end NamedLemmas

/-- C7: For every module list, the module manager constructed from it has all
four orderings (init-genesis, export-genesis, begin-block, end-block) equal
to the list of module names in registration order. -/
theorem newModuleManager_default_orderings
    {Ctx ReqB ReqE Raw V Tag H Q : Type}
    (modules : List (AppModule Ctx ReqB ReqE Raw V Tag H Q)) :
    (NewModuleManager modules).OrderInitGenesis = modules.map (fun m => m.Name) ∧
    (NewModuleManager modules).OrderExportGenesis = modules.map (fun m => m.Name) ∧
    (NewModuleManager modules).OrderBeginBlockers = modules.map (fun m => m.Name) ∧
    (NewModuleManager modules).OrderEndBlockers = modules.map (fun m => m.Name) := by
  refine ⟨rfl, rfl, rfl, rfl⟩

/-- C8: Each of the four ordering setters unconditionally replaces only its
own ordering, for an arbitrary name sequence (no validation against the
module map), and leaves the other three orderings and the module map
unchanged. -/
theorem setOrder_frame
    {Ctx ReqB ReqE Raw V Tag H Q : Type}
    (mm : ModuleManager Ctx ReqB ReqE Raw V Tag H Q) (ns : List String) :
    (mm.SetOrderInitGenesis ns).OrderInitGenesis = ns ∧
    (mm.SetOrderInitGenesis ns).OrderExportGenesis = mm.OrderExportGenesis ∧
    (mm.SetOrderInitGenesis ns).OrderBeginBlockers = mm.OrderBeginBlockers ∧
    (mm.SetOrderInitGenesis ns).OrderEndBlockers = mm.OrderEndBlockers ∧
    (mm.SetOrderInitGenesis ns).Modules = mm.Modules ∧
    (mm.SetOrderExportGenesis ns).OrderExportGenesis = ns ∧
    (mm.SetOrderExportGenesis ns).OrderInitGenesis = mm.OrderInitGenesis ∧
    (mm.SetOrderExportGenesis ns).OrderBeginBlockers = mm.OrderBeginBlockers ∧
    (mm.SetOrderExportGenesis ns).OrderEndBlockers = mm.OrderEndBlockers ∧
    (mm.SetOrderExportGenesis ns).Modules = mm.Modules ∧
    (mm.SetOrderBeginBlockers ns).OrderBeginBlockers = ns ∧
    (mm.SetOrderBeginBlockers ns).OrderInitGenesis = mm.OrderInitGenesis ∧
    (mm.SetOrderBeginBlockers ns).OrderExportGenesis = mm.OrderExportGenesis ∧
    (mm.SetOrderBeginBlockers ns).OrderEndBlockers = mm.OrderEndBlockers ∧
    (mm.SetOrderBeginBlockers ns).Modules = mm.Modules ∧
    (mm.SetOrderEndBlockers ns).OrderEndBlockers = ns ∧
    (mm.SetOrderEndBlockers ns).OrderInitGenesis = mm.OrderInitGenesis ∧
    (mm.SetOrderEndBlockers ns).OrderExportGenesis = mm.OrderExportGenesis ∧
    (mm.SetOrderEndBlockers ns).OrderBeginBlockers = mm.OrderBeginBlockers ∧
    (mm.SetOrderEndBlockers ns).Modules = mm.Modules := by
  repeat constructor

/-- C1: For every module manager and every sequence of modules iterated by
`InitGenesis` or `EndBlock` (all iterated names resolving in the module
map), the validator-set-update result equals the update list returned by
the last iterated module whose returned list is non-empty — a later
non-empty list overwrites a prior one, a later empty list leaves the prior
result unchanged — and is empty when no module returns a non-empty list. -/
theorem validatorUpdates_last_nonempty_wins
    {Ctx ReqB ReqE Raw V Tag H Q : Type}
    (mm : ModuleManager Ctx ReqB ReqE Raw V Tag H Q)
    (ctx : Ctx) (req : ReqE) (gen : String → Option Raw)
    (hEnd : ∀ n ∈ mm.OrderEndBlockers, (mapLookup mm.Modules n).isSome)
    (hInit : ∀ n ∈ mm.OrderInitGenesis, gen n ≠ none → (mapLookup mm.Modules n).isSome) :
    (mm.EndBlock ctx req).map Prod.fst =
      some (lastNonEmpty
        ((mm.OrderEndBlockers.filterMap (mapLookup mm.Modules)).map
          (fun m => (m.EndBlock ctx req).1))) ∧
    mm.InitGenesis ctx gen =
      some (lastNonEmpty
        ((mm.OrderInitGenesis.filterMap
            (fun x => (gen x).bind
              (fun p => (mapLookup mm.Modules x).map (fun m => (m, p))))).map
          (fun mp => mp.1.InitGenesis ctx mp.2))) := by
  constructor
  · rw [ModuleManager.EndBlock, endBlockAux_spec ctx req _ [] (EmptyTags Tag) hEnd]
    simp only [Option.map_some']
    congr 1
    rw [lastNonEmpty, ← foldl_if_getLast, List.foldl_map]
  · rw [ModuleManager.InitGenesis, initGenesisAux_spec ctx gen _ [] hInit]
    congr 1
    rw [lastNonEmpty, ← foldl_if_getLast, List.foldl_map]

/-- Witness for C1 at the concrete manager `mmAB` and genesis map `genA`. -/
theorem validatorUpdates_last_nonempty_wins_witness :
    (∀ n ∈ mmAB.OrderEndBlockers, (mapLookup mmAB.Modules n).isSome) ∧
    (∀ n ∈ mmAB.OrderInitGenesis, genA n ≠ none → (mapLookup mmAB.Modules n).isSome) ∧
    ((ModuleManager.EndBlock mmAB 0 0).map Prod.fst =
      some (lastNonEmpty
        ((mmAB.OrderEndBlockers.filterMap (mapLookup mmAB.Modules)).map
          (fun m => (m.EndBlock 0 0).1))) ∧
     ModuleManager.InitGenesis mmAB 0 genA =
      some (lastNonEmpty
        ((mmAB.OrderInitGenesis.filterMap
            (fun x => (genA x).bind
              (fun p => (mapLookup mmAB.Modules x).map (fun m => (m, p))))).map
          (fun mp => mp.1.InitGenesis 0 mp.2)))) :=
  ⟨by decide, by decide,
    validatorUpdates_last_nonempty_wins mmAB 0 0 genA (by decide) (by decide)⟩

/-- C2: For every module manager and genesis map (iterated non-nil names
resolving in the module map), `InitGenesis` skips every listed name whose
genesis entry is nil/absent — that name never appears in the invocation
trace — and invokes, for every listed name with a non-nil entry, that
module with exactly that entry: the trace is precisely the listed names
with non-nil entries paired with their entries, in order. -/
theorem initGenesis_skips_nil_entries
    {Ctx ReqB ReqE Raw V Tag H Q : Type}
    (mm : ModuleManager Ctx ReqB ReqE Raw V Tag H Q) (gen : String → Option Raw)
    (h : ∀ n ∈ mm.OrderInitGenesis, gen n ≠ none → (mapLookup mm.Modules n).isSome) :
    initGenesisInvocations mm gen mm.OrderInitGenesis =
      some (mm.OrderInitGenesis.filterMap (fun x => (gen x).map (fun p => (x, p)))) ∧
    (∀ n, gen n = none →
      ∀ tr, initGenesisInvocations mm gen mm.OrderInitGenesis = some tr →
        ∀ p, (n, p) ∉ tr) ∧
    (∀ n p, gen n = some p → n ∈ mm.OrderInitGenesis →
      ∀ tr, initGenesisInvocations mm gen mm.OrderInitGenesis = some tr →
        (n, p) ∈ tr ∧ ∀ q, (n, q) ∈ tr → q = p) := by
  refine ⟨initGenesisInvocations_spec gen _ h, ?_, ?_⟩
  · intro n hgen tr htr p hp
    have := (initGenesisInvocations_mem gen _ tr htr (n, p) hp).2
    rw [hgen] at this
    cases this
  · intro n p hgen hmem tr htr
    constructor
    · rw [initGenesisInvocations_spec gen _ h] at htr
      cases htr
      exact List.mem_filterMap.mpr ⟨n, hmem, by rw [hgen]; rfl⟩
    · intro q hq
      have := (initGenesisInvocations_mem gen _ tr htr (n, q) hq).2
      rw [hgen] at this
      cases this
      rfl

/-- Witness for C2 at the concrete manager `mmAB` and genesis map `genA`
(an entry for "a" only; "b" is listed but absent from the map). -/
theorem initGenesis_skips_nil_entries_witness :
    (∀ n ∈ mmAB.OrderInitGenesis, genA n ≠ none → (mapLookup mmAB.Modules n).isSome) ∧
    (initGenesisInvocations mmAB genA mmAB.OrderInitGenesis =
      some (mmAB.OrderInitGenesis.filterMap (fun x => (genA x).map (fun p => (x, p)))) ∧
     (∀ n, genA n = none →
       ∀ tr, initGenesisInvocations mmAB genA mmAB.OrderInitGenesis = some tr →
         ∀ p, (n, p) ∉ tr) ∧
     (∀ n p, genA n = some p → n ∈ mmAB.OrderInitGenesis →
       ∀ tr, initGenesisInvocations mmAB genA mmAB.OrderInitGenesis = some tr →
         (n, p) ∈ tr ∧ ∀ q, (n, q) ∈ tr → q = p)) :=
  ⟨by decide, initGenesis_skips_nil_entries mmAB genA (by decide)⟩

/-- C3: For every Basic Registry and genesis mapping, `ValidateGenesis`
iterates in registration order, passes each module its own entry (nil when
absent — the invocation trace records exactly the entry passed), returns
the first failing module's error (the modules after the first failing one
are never invoked: the trace stops there), and returns no error when no
validator fails (the drop-while remainder is then empty). -/
theorem validateGenesis_fail_fast {Raw Err : Type}
    (mbm : ModuleBasicManager Raw Err) (genesis : String → Option Raw) :
    ModuleBasicManager.ValidateGenesis mbm genesis =
      ((mbm.dropWhile
          (fun mb => (mb.ValidateGenesis (genesis mb.Name)).isNone)).head?).bind
        (fun mb => mb.ValidateGenesis (genesis mb.Name)) ∧
    validateGenesisInvocations mbm genesis =
      (mbm.takeWhile (fun mb => (mb.ValidateGenesis (genesis mb.Name)).isNone)).map
        (fun mb => (mb.Name, genesis mb.Name)) ++
      (((mbm.dropWhile
          (fun mb => (mb.ValidateGenesis (genesis mb.Name)).isNone)).head?).map
        (fun mb => (mb.Name, genesis mb.Name))).toList :=
  validateGenesis_span mbm genesis

/-- C4 counterexample: two registries whose (only) failing modules are
different modules — different names — produce identical results from
`ValidateGenesis`: the returned value is the module's raw error (here 7)
and carries no identification of which module failed. -/
theorem validateGenesis_error_unidentified_cex :
    ModuleBasicManager.ValidateGenesis [mbFailA] (fun _ => none) = some 7 ∧
    ModuleBasicManager.ValidateGenesis [mbFailB] (fun _ => none) = some 7 ∧
    ModuleBasicManager.ValidateGenesis [mbFailA] (fun _ => none) =
      ModuleBasicManager.ValidateGenesis [mbFailB] (fun _ => none) ∧
    mbFailA.Name ≠ mbFailB.Name :=
  ⟨rfl, rfl, rfl, by decide⟩

/-- C4 (amended): on a failing genesis mapping, the error reported to the
caller is exactly the first failing module's own validator error, returned
unwrapped — no structure identifying the failing module is added. -/
theorem validateGenesis_error_is_raw {Raw Err : Type}
    (mbm : ModuleBasicManager Raw Err) (genesis : String → Option Raw)
    (mb : AppModuleBasic Raw Err)
    (h : (mbm.dropWhile
        (fun mb => (mb.ValidateGenesis (genesis mb.Name)).isNone)).head? = some mb) :
    ModuleBasicManager.ValidateGenesis mbm genesis =
      mb.ValidateGenesis (genesis mb.Name) := by
  rw [(validateGenesis_span mbm genesis).1, h]
  rfl

/-- Witness for the amended C4 at the one-module registry `[mbFailA]`. -/
theorem validateGenesis_error_is_raw_witness :
    (([mbFailA] : ModuleBasicManager Nat Nat).dropWhile
        (fun mb => (mb.ValidateGenesis ((fun _ => none) mb.Name)).isNone)).head? =
      some mbFailA ∧
    ModuleBasicManager.ValidateGenesis [mbFailA] (fun _ => none) =
      mbFailA.ValidateGenesis ((fun _ => none) mbFailA.Name) :=
  ⟨rfl, validateGenesis_error_is_raw [mbFailA] (fun _ => none) mbFailA rfl⟩

/-- C5: For every module manager and block request (all iterated names
resolving in the module map), the tag set returned by `BeginBlock` (and the
tag component of `EndBlock`) is the concatenation — `List.flatten` of the
per-module tag lists, in iteration order — with no reordering and no
deduplication. -/
theorem blockTags_concatenation
    {Ctx ReqB ReqE Raw V Tag H Q : Type}
    (mm : ModuleManager Ctx ReqB ReqE Raw V Tag H Q)
    (ctx : Ctx) (reqB : ReqB) (reqE : ReqE)
    (hB : ∀ n ∈ mm.OrderBeginBlockers, (mapLookup mm.Modules n).isSome)
    (hE : ∀ n ∈ mm.OrderEndBlockers, (mapLookup mm.Modules n).isSome) :
    mm.BeginBlock ctx reqB =
      some (((mm.OrderBeginBlockers.filterMap (mapLookup mm.Modules)).map
        (fun m => m.BeginBlock ctx reqB)).flatten) ∧
    (mm.EndBlock ctx reqE).map Prod.snd =
      some (((mm.OrderEndBlockers.filterMap (mapLookup mm.Modules)).map
        (fun m => (m.EndBlock ctx reqE).2)).flatten) := by
  constructor
  · rw [ModuleManager.BeginBlock, beginBlockAux_spec ctx reqB _ (EmptyTags Tag) hB]
    simp [EmptyTags]
  · rw [ModuleManager.EndBlock, endBlockAux_spec ctx reqE _ [] (EmptyTags Tag) hE]
    simp [EmptyTags]

/-- Witness for C5 at the concrete manager `mmAB`, whose two modules return
the same tag (10) from `BeginBlock`: the duplicate is preserved. -/
theorem blockTags_concatenation_witness :
    (∀ n ∈ mmAB.OrderBeginBlockers, (mapLookup mmAB.Modules n).isSome) ∧
    (∀ n ∈ mmAB.OrderEndBlockers, (mapLookup mmAB.Modules n).isSome) ∧
    (ModuleManager.BeginBlock mmAB 0 0 =
      some (((mmAB.OrderBeginBlockers.filterMap (mapLookup mmAB.Modules)).map
        (fun m => m.BeginBlock 0 0)).flatten) ∧
     (ModuleManager.EndBlock mmAB 0 0).map Prod.snd =
      some (((mmAB.OrderEndBlockers.filterMap (mapLookup mmAB.Modules)).map
        (fun m => (m.EndBlock 0 0).2)).flatten)) ∧
    ModuleManager.BeginBlock mmAB 0 0 = some [10, 10] :=
  ⟨by decide, by decide,
    blockTags_concatenation mmAB 0 0 0 (by decide) (by decide), by decide⟩

/-- C6: For every module manager, `RegisterRoutes` appends to the
transaction router exactly one `(Route, NewHandler)` pair per module whose
`Route` is non-empty — a module with empty `Route` contributes nothing —
and likewise one `(QuerierRoute, NewQuerierHandler)` pair per module whose
`QuerierRoute` is non-empty, in map-iteration order. -/
theorem registerRoutes_gating
    {Ctx ReqB ReqE Raw V Tag H Q : Type}
    (mm : ModuleManager Ctx ReqB ReqE Raw V Tag H Q)
    (router : List (String × H)) (queryRouter : List (String × Q)) :
    mm.RegisterRoutes router queryRouter =
      (router ++ (mm.Modules.map (fun e =>
          if e.2.Route ≠ "" then [(e.2.Route, e.2.NewHandler)] else [])).flatten,
       queryRouter ++ (mm.Modules.map (fun e =>
          if e.2.QuerierRoute ≠ "" then [(e.2.QuerierRoute, e.2.NewQuerierHandler)]
          else [])).flatten) := by
  rw [ModuleManager.RegisterRoutes]
  induction mm.Modules generalizing router queryRouter with
  | nil => simp
  | cons e rest ih =>
    rcases e with ⟨nm, m⟩
    rw [List.foldl_cons]
    dsimp only
    by_cases hr : m.Route = ""
    · by_cases hq : m.QuerierRoute = ""
      · simp only [hr, hq, ne_eq, not_true_eq_false, if_false, ite_false]
        rw [ih]
        simp [hr, hq]
      · simp only [hr, hq, ne_eq, not_true_eq_false, if_false, not_false_eq_true,
          if_true, ite_true]
        rw [ih]
        simp [hr, hq, addRoute, List.append_assoc]
    · by_cases hq : m.QuerierRoute = ""
      · simp only [hr, hq, ne_eq, not_true_eq_false, if_false, not_false_eq_true,
          if_true, ite_true, ite_false]
        rw [ih]
        simp [hr, hq, addRoute, List.append_assoc]
      · simp only [hr, hq, ne_eq, not_false_eq_true, if_true, ite_true]
        rw [ih]
        simp [hr, hq, addRoute, List.append_assoc]

/-- C9: For every module manager, a name appearing in a lifecycle ordering
but absent from the module map makes that lifecycle call panic (`none`)
when iterated — except that `InitGenesis` first skips such a name when its
genesis entry is nil/absent, and completes whenever every unresolvable
listed name has a nil entry — and a name omitted from an ordering is never
invoked at that lifecycle point (it appears in no invocation trace). -/
theorem ordering_map_mismatch
    {Ctx ReqB ReqE Raw V Tag H Q : Type}
    (mm : ModuleManager Ctx ReqB ReqE Raw V Tag H Q)
    (ctx : Ctx) (reqB : ReqB) (gen : String → Option Raw) (n : String) :
    (n ∈ mm.OrderBeginBlockers → mapLookup mm.Modules n = none →
      mm.BeginBlock ctx reqB = none) ∧
    (n ∈ mm.OrderExportGenesis → mapLookup mm.Modules n = none →
      mm.ExportGenesis ctx = none) ∧
    (n ∈ mm.OrderInitGenesis → mapLookup mm.Modules n = none → gen n ≠ none →
      mm.InitGenesis ctx gen = none) ∧
    ((∀ x ∈ mm.OrderInitGenesis, mapLookup mm.Modules x = none → gen x = none) →
      (mm.InitGenesis ctx gen).isSome) ∧
    (n ∉ mm.OrderBeginBlockers →
      ∀ tr, orderInvocations mm mm.OrderBeginBlockers = some tr →
        ∀ m, (n, m) ∉ tr) ∧
    (n ∉ mm.OrderExportGenesis →
      ∀ tr, orderInvocations mm mm.OrderExportGenesis = some tr →
        ∀ m, (n, m) ∉ tr) ∧
    (n ∉ mm.OrderInitGenesis →
      ∀ tr, initGenesisInvocations mm gen mm.OrderInitGenesis = some tr →
        ∀ p, (n, p) ∉ tr) := by
  refine ⟨?_, ?_, ?_, ?_, ?_, ?_, ?_⟩
  · intro hmem hnone
    exact beginBlockAux_none ctx reqB _ ⟨n, hmem, hnone⟩ _
  · intro hmem hnone
    exact exportGenesisAux_none ctx _ ⟨n, hmem, hnone⟩ _
  · intro hmem hnone hgen
    exact initGenesisAux_none ctx gen _ ⟨n, hmem, hnone, hgen⟩ _
  · intro h
    exact initGenesisAux_isSome ctx gen _ h _
  · intro hnot tr htr m hmem
    exact hnot (orderInvocations_mem _ tr htr (n, m) hmem).1
  · intro hnot tr htr m hmem
    exact hnot (orderInvocations_mem _ tr htr (n, m) hmem).1
  · intro hnot tr htr p hmem
    exact hnot (initGenesisInvocations_mem gen _ tr htr (n, p) hmem).1

/-- Witness for C9: `mmGhost` lists the unregistered name "g" in its
orderings (panics, except the nil-entry skip), and `mmA` omits "z" (never
invoked). -/
theorem ordering_map_mismatch_witness :
    ModuleManager.BeginBlock mmGhost 0 0 = none ∧
    ModuleManager.ExportGenesis mmGhost 0 = none ∧
    ModuleManager.InitGenesis mmGhost 0 genG = none ∧
    (ModuleManager.InitGenesis mmGhost 0 (fun _ => none)).isSome ∧
    (∀ m, (("z" : String), m) ∉ ([("a", modA)] : List (String × NatModule))) ∧
    (∀ p, (("z" : String), p) ∉ ([("a", 5)] : List (String × Nat))) :=
  ⟨(ordering_map_mismatch mmGhost 0 0 genG "g").1 (by decide) rfl,
   (ordering_map_mismatch mmGhost 0 0 genG "g").2.1 (by decide) rfl,
   (ordering_map_mismatch mmGhost 0 0 genG "g").2.2.1 (by decide) rfl (by decide),
   (ordering_map_mismatch mmGhost 0 0 (fun _ => none) "g").2.2.2.1
     (fun x hx _ => rfl),
   (ordering_map_mismatch mmA 0 0 genA "z").2.2.2.2.1 (by decide) _ rfl,
   (ordering_map_mismatch mmA 0 0 genA "z").2.2.2.2.2.2 (by decide) _ rfl⟩

/-- C10: For every module list containing two modules with the same name
(the later one, `m2`, being the last with that name), the constructed
manager maps that name to the later-registered module `m2`; the name occurs
once per duplicate in the default orderings (as many times as modules carry
it, at least twice); and the lifecycle iteration along the ordering invokes
`m2` once per occurrence — multiple times — while the earlier module `m1`
is never invoked. -/
theorem duplicate_name_last_registration_wins
    {Ctx ReqB ReqE Raw V Tag H Q : Type}
    (l1 l2 l3 : List (AppModule Ctx ReqB ReqE Raw V Tag H Q))
    (m1 m2 : AppModule Ctx ReqB ReqE Raw V Tag H Q) (n : String)
    (h1 : m1.Name = n) (h2 : m2.Name = n)
    (h3 : ∀ m ∈ l3, m.Name ≠ n) (hne : m1 ≠ m2) :
    mapLookup (NewModuleManager (l1 ++ m1 :: l2 ++ m2 :: l3)).Modules n = some m2 ∧
    ((NewModuleManager (l1 ++ m1 :: l2 ++ m2 :: l3)).OrderBeginBlockers.filter
        (fun x => x = n)).length =
      ((l1 ++ m1 :: l2 ++ m2 :: l3).filter (fun m => m.Name = n)).length ∧
    2 ≤ ((l1 ++ m1 :: l2 ++ m2 :: l3).filter (fun m => m.Name = n)).length ∧
    ∃ tr, orderInvocations (NewModuleManager (l1 ++ m1 :: l2 ++ m2 :: l3))
        (NewModuleManager (l1 ++ m1 :: l2 ++ m2 :: l3)).OrderBeginBlockers = some tr ∧
      tr.filter (fun e => e.1 = n) =
        List.replicate
          (((l1 ++ m1 :: l2 ++ m2 :: l3).filter (fun m => m.Name = n)).length)
          (n, m2) ∧
      ∀ e ∈ tr, e.2 ≠ m1 := by
  have hA : lastNamed (m2 :: l3) n = some m2 := by
    rw [lastNamed, lastNamed_eq_none l3 n h3]
    simp [h2]
  have hlast : lastNamed (l1 ++ m1 :: l2 ++ m2 :: l3) n = some m2 := by
    rw [lastNamed_append, hA]
  have conj1 : mapLookup (NewModuleManager (l1 ++ m1 :: l2 ++ m2 :: l3)).Modules n =
      some m2 := by
    rw [lookup_newModuleManager]
    exact hlast
  have hOrder : (NewModuleManager (l1 ++ m1 :: l2 ++ m2 :: l3)).OrderBeginBlockers =
      (l1 ++ m1 :: l2 ++ m2 :: l3).map (fun m => m.Name) := rfl
  have conj2 : ((NewModuleManager (l1 ++ m1 :: l2 ++ m2 :: l3)).OrderBeginBlockers.filter
        (fun x => x = n)).length =
      ((l1 ++ m1 :: l2 ++ m2 :: l3).filter (fun m => m.Name = n)).length := by
    rw [hOrder, List.filter_map, List.length_map]
    rfl
  have conj3 : 2 ≤ ((l1 ++ m1 :: l2 ++ m2 :: l3).filter (fun m => m.Name = n)).length := by
    simp [List.filter_append, List.filter_cons, h1, h2]
    omega
  have hres : ∀ x ∈ (NewModuleManager (l1 ++ m1 :: l2 ++ m2 :: l3)).OrderBeginBlockers,
      (mapLookup (NewModuleManager (l1 ++ m1 :: l2 ++ m2 :: l3)).Modules x).isSome := by
    intro x hx
    rw [lookup_newModuleManager]
    rw [hOrder] at hx
    obtain ⟨m, hm, hname⟩ := List.mem_map.mp hx
    exact lastNamed_isSome _ x ⟨m, hm, hname⟩
  obtain ⟨tr, htr⟩ : ∃ tr, orderInvocations (NewModuleManager (l1 ++ m1 :: l2 ++ m2 :: l3))
      (NewModuleManager (l1 ++ m1 :: l2 ++ m2 :: l3)).OrderBeginBlockers = some tr := by
    rw [orderInvocations_spec _ hres]
    exact ⟨_, rfl⟩
  refine ⟨conj1, conj2, conj3, tr, htr, ?_, ?_⟩
  · have hfil := trace_filter_replicate _ n m2 conj1 _ hres tr htr
    rw [conj2] at hfil
    exact hfil
  · intro e he
    obtain ⟨hmem, hlk⟩ := orderInvocations_mem _ tr htr e he
    rw [lookup_newModuleManager] at hlk
    have hname := lastNamed_name _ e.1 e.2 hlk
    by_cases hx : e.1 = n
    · rw [hx, hlast] at hlk
      exact fun h => hne (((Option.some.inj hlk).trans h).symm)
    · exact fun h => hx (by rw [← hname, h, h1])

/-- Witness for C10 at the two-module list `[modX1, modX2]`, both named
"x" but unequal (different routes). -/
theorem duplicate_name_last_registration_wins_witness :
    (∀ m ∈ ([] : List NatModule), AppModule.Name m ≠ "x") ∧
    modX1 ≠ modX2 ∧
    (mapLookup (NewModuleManager [modX1, modX2]).Modules "x" = some modX2 ∧
     ((NewModuleManager [modX1, modX2]).OrderBeginBlockers.filter
         (fun x => x = "x")).length =
       (([modX1, modX2] : List NatModule).filter (fun m => m.Name = "x")).length ∧
     2 ≤ (([modX1, modX2] : List NatModule).filter (fun m => m.Name = "x")).length ∧
     ∃ tr, orderInvocations (NewModuleManager [modX1, modX2])
         (NewModuleManager [modX1, modX2]).OrderBeginBlockers = some tr ∧
       tr.filter (fun e => e.1 = "x") =
         List.replicate
           ((([modX1, modX2] : List NatModule).filter (fun m => m.Name = "x")).length)
           ("x", modX2) ∧
       ∀ e ∈ tr, e.2 ≠ modX1) :=
  ⟨fun m hm => absurd hm (List.not_mem_nil m),
   fun h => absurd (congrArg AppModule.Route h) (by decide),
   duplicate_name_last_registration_wins [] [] [] modX1 modX2 "x" rfl rfl
     (fun m hm => absurd hm (List.not_mem_nil m))
     (fun h => absurd (congrArg AppModule.Route h) (by decide))⟩
